import Mathlib

/-!
Verification of the gezellig shared-queue audio engine
(`src-tauri/src/youtube_pipeline.rs`, `dj_publisher.rs`, `audio.rs`).

The event-sourced shared queue, the append protocol, the playback-loop
event discipline, the frame assembler and the volume path are embedded
as executable Lean definitions, translated from the Rust source.  The
event log is modelled as a list of lines, each line being the result of
the serde parse of that line: `some e` for a line holding a well-formed
event, `none` for an empty or malformed line (which the code skips).
Rust `HashMap` values are modelled as association lists whose `insert`
replaces the entry for the key; `HashSet` as lists without duplicates.
-/

namespace Gezellig

/-- One queue event as deserialized from a log line
(struct `QueueEvent` in `youtube_pipeline.rs`).  The Rust field `by`
is called `by_` here because `by` is a Lean keyword. -/
structure QueueEvent where
  id : Nat
  event_type : String
  url : Option String
  title : Option String
  by_ : Option String
  ref_id : Option Nat
  order : Option (List Nat)
  deriving Repr, DecidableEq

/-- Internal now-playing record (struct `SharedNowPlayingInternal`). -/
structure SharedNowPlayingInternal where
  title : String
  url : String
  queued_id : Option Nat
  deriving Repr, DecidableEq

/-- A queued track (struct `QueuedTrack`). -/
structure QueuedTrack where
  url : String
  title : String
  queued_id : Option Nat
  queued_by : Option String
  deriving Repr, DecidableEq

/-- The projection output (struct `SharedQueueData`).  `skip_events`,
`needs_metadata` and `history` keep the Rust field shapes:
`HashMap<u64,u64>`, `Vec<(u64,String)>` and
`Vec<(String, Option<String>, Option<String>)>`. -/
structure SharedQueueData where
  items : List QueuedTrack
  now_playing : Option SharedNowPlayingInternal
  max_id : Nat
  skip_events : List (Nat × Nat)
  needs_metadata : List (Nat × String)
  history : List (String × Option String × Option String)
  deriving Repr, DecidableEq

/-- `HashMap::insert`: the new binding replaces any binding of the key. -/
def insertKV {α : Type} (k : Nat) (v : α) (m : List (Nat × α)) : List (Nat × α) :=
  (k, v) :: m.filter (fun p => p.1 != k)

/-- `HashSet::insert`. -/
def setInsert (x : Nat) (s : List Nat) : List Nat :=
  if s.contains x then s else x :: s

/-- Insert into a list sorted by the boolean relation `le`
(the inner step of a stable insertion sort, used to model Rust's
stable `sort_by_key`). -/
def ordInsert {α : Type} (le : α → α → Bool) (a : α) : List α → List α
  | [] => [a]
  | b :: l => if le a b then a :: b :: l else b :: ordInsert le a l

/-- Stable insertion sort by the boolean relation `le`; models Rust's
stable `Vec::sort_by_key`. -/
def isort {α : Type} (le : α → α → Bool) : List α → List α
  | [] => []
  | a :: l => ordInsert le a (isort le l)

/-- The accumulator of the fold in `fetch_shared_queue_data`
(the local mutable variables of the Rust function). -/
structure FoldState where
  max_id : Nat
  queued : List (Nat × String)
  played : List Nat
  failed : List Nat
  skip_events : List (Nat × Nat)
  metadata : List (Nat × String)
  queued_by : List (Nat × String)
  last_cleared_id : Nat
  now_playing : Option SharedNowPlayingInternal
  latest_reorder : Option (List Nat)
  deriving Repr, DecidableEq

/-- Initial fold state (the variable initializers in
`fetch_shared_queue_data`). -/
def initFoldState : FoldState :=
  { max_id := 0, queued := [], played := [], failed := [], skip_events := []
    metadata := [], queued_by := [], last_cleared_id := 0
    now_playing := none, latest_reorder := none }

/-- One step of the event fold: the `match event.event_type.as_str()`
body of `fetch_shared_queue_data`, applied to a successfully parsed
event.  `max_id` is updated for every parsed event before dispatching
on the type. -/
def applyEvent (st : FoldState) (event : QueueEvent) : FoldState :=
  let st := { st with max_id := max st.max_id event.id }
  match event.event_type with
  | "queued" =>
      match event.url with
      | some url =>
          let st :=
            match event.by_ with
            | some b => { st with queued_by := insertKV event.id b st.queued_by }
            | none => st
          { st with queued := st.queued ++ [(event.id, url)] }
      | none => st
  | "played" =>
      match event.ref_id with
      | some r => { st with played := setInsert r st.played }
      | none => st
  | "failed" =>
      match event.ref_id with
      | some r => { st with failed := setInsert r st.failed }
      | none => st
  | "playing" =>
      match event.title, event.url with
      | some t, some u =>
          { st with now_playing := some ⟨t, u, event.ref_id⟩ }
      | _, _ => st
  | "skip" =>
      match event.ref_id with
      | some r => { st with skip_events := insertKV r event.id st.skip_events }
      | none => st
  | "metadata" =>
      match event.ref_id, event.title with
      | some r, some t => { st with metadata := insertKV r t st.metadata }
      | _, _ => st
  | "cleared" =>
      { st with
        last_cleared_id := max st.last_cleared_id event.id
        queued := [], played := [], failed := [], skip_events := []
        metadata := [], queued_by := [], now_playing := none
        latest_reorder := none }
  | "reordered" =>
      match event.order with
      | some o => { st with latest_reorder := some o }
      | none => st
  | _ => st

/-- One line of the parse loop: unparsable lines (`none`) are skipped,
as the Rust `Err(err)` arm only logs. -/
def foldStep (st : FoldState) : Option QueueEvent → FoldState
  | some e => applyEvent st e
  | none => st

/-- Fold the whole log. -/
def foldEvents (lines : List (Option QueueEvent)) : FoldState :=
  lines.foldl foldStep initFoldState

/-- Comparison used when applying the latest reorder: the Rust sort key
is `order_map.get(&id).copied().unwrap_or(usize::MAX)`, so a missing
key (modelled `none`) compares greater than every present index. -/
def optKeyLe : Option Nat → Option Nat → Bool
  | some x, some y => x ≤ y
  | some _, none => true
  | none, some _ => false
  | none, none => true

/-- The reorder map `order.iter().enumerate().map(|(i,id)| (id,i))`
collected into a `HashMap` (later index wins for duplicate ids). -/
def buildOrderMap (order : List Nat) : List (Nat × Nat) :=
  order.enum.foldl (fun m p => insertKV p.2 p.1 m) []

/-- The sort key of an item under a reorder map. -/
def reorderKey (order_map : List (Nat × Nat)) (t : QueuedTrack) : Option Nat :=
  t.queued_id.bind (fun id => List.lookup id order_map)

/-- The `needs_metadata` collection of `fetch_shared_queue_data`:
queued ids above the clear watermark with no metadata yet, in queue
insertion order (computed before the sort in the Rust code). -/
def needsMetadataOf (st : FoldState) : List (Nat × String) :=
  st.queued.filter (fun p =>
    decide (st.last_cleared_id < p.1) && (List.lookup p.1 st.metadata).isNone)

/-- `queued.sort_by_key(|(id, _)| *id)` in `fetch_shared_queue_data`. -/
def sortedQueuedOf (st : FoldState) : List (Nat × String) :=
  isort (fun a b => a.1 ≤ b.1) st.queued

/-- The (id, url) pairs underlying the history of
`fetch_shared_queue_data`: sorted queued entries above the watermark
that are played or failed, reversed (most recent id first). -/
def historyPairs (st : FoldState) : List (Nat × String) :=
  ((sortedQueuedOf st).filter (fun p =>
    decide (st.last_cleared_id < p.1)
      && (st.played.contains p.1 || st.failed.contains p.1))).reverse

/-- The `history` collection of `fetch_shared_queue_data`. -/
def historyOf (st : FoldState) : List (String × Option String × Option String) :=
  (historyPairs st).map
    (fun p => (p.2, List.lookup p.1 st.metadata, List.lookup p.1 st.queued_by))

/-- The (id, url) pairs kept as pending `items` by
`fetch_shared_queue_data`, before the optional reorder sort. -/
def pendingPairs (st : FoldState) : List (Nat × String) :=
  (sortedQueuedOf st).filter (fun p =>
    decide (st.last_cleared_id < p.1)
      && !st.played.contains p.1
      && !st.failed.contains p.1
      && decide (some p.1 ≠ st.now_playing.bind (fun now => now.queued_id)))

/-- The pending `items` of `fetch_shared_queue_data`: the kept pairs
materialized as `QueuedTrack`s, then stably re-sorted by the latest
explicit reorder when one is present (unknown ids sort last). -/
def itemsOf (st : FoldState) : List QueuedTrack :=
  let items :=
    (pendingPairs st).map
      (fun p =>
        { url := p.2
          title := (List.lookup p.1 st.metadata).getD "Loading..."
          queued_id := some p.1
          queued_by := List.lookup p.1 st.queued_by : QueuedTrack })
  match st.latest_reorder with
  | some order =>
      let order_map := buildOrderMap order
      isort (fun a b => optKeyLe (reorderKey order_map a) (reorderKey order_map b)) items
  | none => items

/-- The final `now_playing` of `fetch_shared_queue_data`: cleared when
the referenced id has since been played or failed. -/
def nowPlayingOf (st : FoldState) : Option SharedNowPlayingInternal :=
  match st.now_playing with
  | some now =>
      match now.queued_id with
      | some r =>
          if st.played.contains r || st.failed.contains r then none else some now
      | none => some now
  | none => none

/-- The pure part of `fetch_shared_queue_data`: fold the parsed lines,
then derive `needs_metadata`, the sorted pending `items`, the
`history`, and the final `now_playing` exactly as the Rust code does
after its parse loop. -/
def fetch_shared_queue_data (lines : List (Option QueueEvent)) : SharedQueueData :=
  let st := foldEvents lines
  { items := itemsOf st, now_playing := nowPlayingOf st, max_id := st.max_id
    skip_events := st.skip_events, needs_metadata := needsMetadataOf st
    history := historyOf st }


/-- The `queued` event JSON built by `append_queue_event`
(no `by` attribution). -/
def queuedEv (id : Nat) (url : String) : QueueEvent :=
  ⟨id, "queued", some url, none, none, none, none⟩

/-- The `queued` event JSON built by `append_queue_event` with a `by`
attribution. -/
def queuedByEv (id : Nat) (url by_ : String) : QueueEvent :=
  ⟨id, "queued", some url, none, some by_, none, none⟩

/-- The `played` event JSON built by `append_event_with_ref`. -/
def playedEv (id ref : Nat) : QueueEvent :=
  ⟨id, "played", none, none, none, some ref, none⟩

/-- The `failed` event JSON built by `append_event_with_ref`. -/
def failedEv (id ref : Nat) : QueueEvent :=
  ⟨id, "failed", none, none, none, some ref, none⟩

/-- The `skip` event JSON built by `append_event_with_ref`. -/
def skipEv (id ref : Nat) : QueueEvent :=
  ⟨id, "skip", none, none, none, some ref, none⟩

/-- The `playing` event JSON built by `append_playing_event`. -/
def playingEv (id ref : Nat) (title url : String) : QueueEvent :=
  ⟨id, "playing", some url, some title, none, some ref, none⟩

/-- The `metadata` event JSON built by `append_metadata_event`. -/
def metadataEv (id ref : Nat) (title url : String) : QueueEvent :=
  ⟨id, "metadata", some url, some title, none, some ref, none⟩

/-- The `cleared` event JSON built by `append_cleared_event`. -/
def clearedEv (id : Nat) : QueueEvent :=
  ⟨id, "cleared", none, none, none, none, none⟩

/-- The `reordered` event JSON built by `append_reorder_event`. -/
def reorderedEv (id : Nat) (order : List Nat) : QueueEvent :=
  ⟨id, "reordered", none, none, none, none, some order⟩

/-- `shared_skip_requested`: look up the recorded skip-event id for the
track and report whether it is strictly newer than `since_id`
(the id of the `playing` event the engine emitted). -/
def shared_skip_requested (lines : List (Option QueueEvent))
    (queued_id since_id : Nat) : Bool :=
  (((fetch_shared_queue_data lines).skip_events.lookup queued_id).map
    (fun event_id => decide (since_id < event_id))).getD false

/-- Substring containment on character lists, modelling Rust
`str::contains`. -/
def charsContain (needle : List Char) : List Char → Bool
  | [] => needle.isEmpty
  | c :: t => needle.isPrefixOf (c :: t) || charsContain needle t

/-- Rust `err.contains("409")`: the conflict test in
`append_event_with_retry`. -/
def isConflictErr (err : String) : Bool :=
  charsContain "409".toList err.toList

/-- The maximum id over the parsed lines of a freshly read log: the
`max_id` loop of `append_event_with_retry` (`0` for an empty log, and a
failed read degrades to the empty log via `unwrap_or`). -/
def maxIdOf (lines : List (Option QueueEvent)) : Nat :=
  lines.foldl (fun m o => match o with | some e => max m e.id | none => m) 0

/-- The environment one attempt of `append_event_with_retry` runs in:
what `read_repo_file` returns (a failed read is already degraded to the
empty log by `unwrap_or`, so only the parsed lines remain), what
`write_repo_file` returns for the content written on this attempt
(`none` for `Ok`), and what `write_shared_state` returns after a
successful write. -/
structure AppendAttempt where
  readLines : List (Option QueueEvent)
  writeResult : Option String
  stateWriteResult : Option String

/-- `append_event_with_retry`, unrolled over its `for attempt in 0..2`
loop: attempt 0 re-reads, computes `next_id = max_id + 1`, writes, and
on a write error containing "409" falls through to attempt 1, which
does the same but returns any write error as-is; any non-conflict error
on attempt 0 is returned without consulting attempt 1.  On a successful
write the local `write_shared_state` result is propagated by `?` and
the new event's id is returned. -/
def append_event_with_retry (a0 a1 : AppendAttempt) : Except String Nat :=
  let next0 := maxIdOf a0.readLines + 1
  match a0.writeResult with
  | none =>
      match a0.stateWriteResult with
      | none => Except.ok next0
      | some e => Except.error e
  | some err =>
      if isConflictErr err then
        let next1 := maxIdOf a1.readLines + 1
        match a1.writeResult with
        | none =>
            match a1.stateWriteResult with
            | none => Except.ok next1
            | some e => Except.error e
        | some err1 => Except.error err1
      else Except.error err

/-- A sequential driver for the monotonic-ids property: run `N`
appends of `queued` events in order against a log that starts at
`lines`; the boolean for each append says whether its first write
attempt is hit by a spurious version conflict (the concurrent writer
lost, so the content the retry re-reads is unchanged).  Each successful
append lands its event at the end of the log, exactly as
`write_repo_file` persists `content ++ event ++ newline`.  Returns the
final log and the ids handed out. -/
def seqAppend (lines : List (Option QueueEvent)) :
    List Bool → List (Option QueueEvent) × List Nat
  | [] => (lines, [])
  | conflict :: rest =>
      let a0 : AppendAttempt :=
        { readLines := lines
        , writeResult := if conflict then some "HTTP 409: Conflict" else none
        , stateWriteResult := none }
      let a1 : AppendAttempt :=
        { readLines := lines, writeResult := none, stateWriteResult := none }
      match append_event_with_retry a0 a1 with
      | Except.ok id =>
          let lines1 := lines ++ [some (queuedEv id "url")]
          let res := seqAppend lines1 rest
          (res.1, id :: res.2)
      | Except.error _ => (lines, [])

/-- `const SAMPLE_RATE: u32 = 48000` in `dj_publisher.rs`. -/
def SAMPLE_RATE : Nat := 48000

/-- `const NUM_CHANNELS: u32 = 2` in `dj_publisher.rs`. -/
def NUM_CHANNELS : Nat := 2

/-- `const SAMPLES_PER_CHANNEL: u32 = SAMPLE_RATE / 100` (10 ms). -/
def SAMPLES_PER_CHANNEL : Nat := SAMPLE_RATE / 100

/-- `frame_size_samples = (SAMPLES_PER_CHANNEL * NUM_CHANNELS) as usize`
in `spawn_audio_publisher`. -/
def frame_size_samples : Nat := SAMPLES_PER_CHANNEL * NUM_CHANNELS

/-- `frame_size_bytes = frame_size_samples * 2` (i16 = 2 bytes). -/
def frame_size_bytes : Nat := frame_size_samples * 2

/-- The inner `while buffer.len() >= frame_size_bytes` loop of
`spawn_audio_publisher`: drain exact frames off the front of the
buffer while a full frame is available.  Returns the emitted frames in
order and the retained remainder.  Bytes are modelled as `Nat`. -/
def emitFrames (buffer : List Nat) : List (List Nat) × List Nat :=
  if _h : frame_size_bytes ≤ buffer.length then
    let frame := buffer.take frame_size_bytes
    let rest := emitFrames (buffer.drop frame_size_bytes)
    (frame :: rest.1, rest.2)
  else ([], buffer)
termination_by buffer.length
decreasing_by
  simp only [List.length_drop]
  have hpos : frame_size_bytes = 1920 := rfl
  omega

/-- One received PCM chunk: `buffer.extend_from_slice(&bytes)` then the
frame-draining loop.  State is (frames already sent, current buffer). -/
def feedChunk (acc : List (List Nat) × List Nat) (chunk : List Nat) :
    List (List Nat) × List Nat :=
  let res := emitFrames (acc.2 ++ chunk)
  (acc.1 ++ res.1, res.2)

/-- Feed a whole sequence of arbitrary-length chunks through the frame
assembler, starting from the empty buffer. -/
def feedChunks (chunks : List (List Nat)) : List (List Nat) × List Nat :=
  chunks.foldl feedChunk ([], [])

/-- Truncation of a rational toward zero: the semantics of Rust's
`as i16` float-to-int cast on an in-range value. -/
def ratTrunc (q : ℚ) : Int :=
  if 0 ≤ q then ⌊q⌋ else ⌈q⌉

/-- The per-sample volume scaling of `run_playback_loop`:
`(*s as f32 * volume_val).clamp(i16::MIN as f32, i16::MAX as f32) as i16`
with `volume_val = volume as f32 / 100.0`, modelled with exact rational
arithmetic in place of `f32`.  Rust `clamp(lo, hi)` is
`max lo (min x hi)`. -/
def scale_sample (s : Int) (volume : Nat) : Int :=
  ratTrunc (max (-32768) (min ((s : ℚ) * ((volume : ℚ) / 100)) 32767))

/-- `DjStatus` from `audio.rs` (the `NowPlaying` payload is flattened
to its `track`/`artist` strings). -/
inductive DjStatus where
  | Idle
  | Loading
  | Playing (track artist : String)
  deriving Repr, DecidableEq

/-- The per-pipeline state owned by `YouTubePipeline`: each lock- or
atomic-protected field, plus the one-shot PCM receiver slot.  The
receiver itself is opaque (`Unit`); only its presence matters.
`sharedQueue` records whether a shared-queue config was resolved at
construction time. -/
structure PipelineState where
  status : DjStatus
  volume : Nat
  queue : List QueuedTrack
  active : Bool
  pcmReceiver : Option Unit
  skipTx : Option Unit
  localPlaybackDisabled : Bool
  loopRunning : Bool
  sharedQueue : Bool
  deriving Repr, DecidableEq

/-- `with_cache_dir_and_state`: the freshly constructed pipeline.
`volume` starts at 50, the PCM receiver slot is filled with the
receiver end of the freshly created channel, no skip channel exists
yet, and nothing is active. -/
def with_cache_dir_and_state (sharedConfigured : Bool) : PipelineState :=
  { status := DjStatus.Idle
  , volume := 50
  , queue := []
  , active := false
  , pcmReceiver := some ()
  , skipTx := none
  , localPlaybackDisabled := false
  , loopRunning := false
  , sharedQueue := sharedConfigured }

/-- `take_pcm_receiver`: `self.pcm_receiver.lock().ok()?.take()` —
returns the current contents of the slot and leaves `None` behind. -/
def take_pcm_receiver (s : PipelineState) : Option Unit × PipelineState :=
  (s.pcmReceiver, { s with pcmReceiver := none })

/-- `set_volume`: `self.volume.store(volume.min(100), ...)`. -/
def set_volume (s : PipelineState) (volume : Nat) : PipelineState :=
  { s with volume := min volume 100 }

/-- The public operations of the `AudioPipeline` impl for
`YouTubePipeline`, at the granularity of their effect on the local
pipeline state (shared-queue operations additionally append events to
the remote log, which does not touch this state). -/
inductive PipelineOp where
  | start
  | stop
  | setVolume (v : Nat)
  | queueTrack (url : String) (queued_by : Option String)
  | skipTrack
  | clearSharedQueue
  | reorderQueue (order : List Nat)
  | setLocalPlayback (enabled : Bool)
  | takeReceiver

/-- Effect of one public operation on the pipeline state, translated
from the `impl AudioPipeline for YouTubePipeline` methods:
`start` raises the active flag, installs a fresh skip channel and marks
the loop running; `stop` lowers the flag, signals skip, sets status
Idle and clears the local queue; `queue_track` pushes onto the local
queue only in non-shared mode (in shared mode it appends a `queued`
event remotely); `clear_shared_queue` clears the local queue only in
non-shared mode; `skip_track` and `reorder_queue` only signal/append;
`take_pcm_receiver` empties the receiver slot. -/
def applyOp (s : PipelineState) : PipelineOp → PipelineState
  | PipelineOp.start =>
      { s with active := true, skipTx := some (), loopRunning := true }
  | PipelineOp.stop =>
      { s with active := false, status := DjStatus.Idle, queue := [] }
  | PipelineOp.setVolume v => set_volume s v
  | PipelineOp.queueTrack url queued_by =>
      if s.sharedQueue then s
      else { s with queue := s.queue ++
        [{ url := url, title := "Loading...", queued_id := none
         , queued_by := queued_by }] }
  | PipelineOp.skipTrack => s
  | PipelineOp.clearSharedQueue =>
      if s.sharedQueue then s else { s with queue := [] }
  | PipelineOp.reorderQueue _ => s
  | PipelineOp.setLocalPlayback enabled =>
      { s with localPlaybackDisabled := !enabled }
  | PipelineOp.takeReceiver => (take_pcm_receiver s).2

/-- Observable actions of one iteration of `run_playback_loop` once a
track has been popped, at the granularity of status changes and
appended lifecycle events. -/
inductive LoopAction where
  | setStatusLoading
  | appendFailed (ref : Nat)
  | setStatusPlaying (title : String)
  | appendPlaying (ref : Nat)
  | streamTrack
  | appendPlayed (ref : Nat)
  deriving Repr, DecidableEq

/-- One iteration of `run_playback_loop` for a popped track, from the
`status = Loading` write up to the `played` append, abstracted over the
outcome of `fetch_audio_streaming` (`Except.error` for a resolution
failure).  `sharedWithId` is `some id` when a shared-queue config is
present and the track carries a queued id (`if let (Some(cfg),
Some(queued_id))`).  Returns the actions performed and whether the main
loop continues to its next iteration (`continue` / fallthrough). -/
def runTrackIteration (sharedWithId : Option Nat)
    (resolution : Except String String) : List LoopAction × Bool :=
  match resolution with
  | Except.error _ =>
      ([LoopAction.setStatusLoading] ++
        (match sharedWithId with
         | some id => [LoopAction.appendFailed id]
         | none => []), true)
  | Except.ok title =>
      ([LoopAction.setStatusLoading, LoopAction.setStatusPlaying title] ++
        (match sharedWithId with
         | some id => [LoopAction.appendPlaying id]
         | none => []) ++
        [LoopAction.streamTrack] ++
        (match sharedWithId with
         | some id => [LoopAction.appendPlayed id]
         | none => []), true)

/-! Generic lemmas about the list helpers. -/

theorem mem_ordInsert {α : Type} (le : α → α → Bool) (a x : α) :
    ∀ l : List α, x ∈ ordInsert le a l ↔ x = a ∨ x ∈ l := by
  intro l
  induction l with
  | nil => simp [ordInsert]
  | cons b t ih =>
    by_cases hab : le a b = true
    · simp [ordInsert, if_pos hab]
    · simp only [ordInsert, if_neg hab, List.mem_cons, ih]
      tauto

theorem mem_isort {α : Type} (le : α → α → Bool) (x : α) (l : List α) :
    x ∈ isort le l ↔ x ∈ l := by
  induction l with
  | nil => simp [isort]
  | cons a t ih => simp [isort, mem_ordInsert, ih]

theorem pairwise_ordInsert {α : Type} (le : α → α → Bool)
    (htrans : ∀ a b c, le a b = true → le b c = true → le a c = true)
    (htot : ∀ a b, le a b = true ∨ le b a = true)
    (a : α) (l : List α) (h : l.Pairwise (fun x y => le x y = true)) :
    (ordInsert le a l).Pairwise (fun x y => le x y = true) := by
  induction l with
  | nil => simp [ordInsert]
  | cons b t ih =>
    rcases List.pairwise_cons.mp h with ⟨hb, ht⟩
    by_cases hab : le a b = true
    · rw [ordInsert, if_pos hab]
      refine List.Pairwise.cons ?_ h
      intro y hy
      rcases List.mem_cons.mp hy with rfl | hyt
      · exact hab
      · exact htrans a b y hab (hb y hyt)
    · rw [ordInsert, if_neg hab]
      refine List.Pairwise.cons ?_ (ih ht)
      intro y hy
      rcases (mem_ordInsert le a y t).mp hy with rfl | hyt
      · exact (htot y b).resolve_left hab
      · exact hb y hyt

theorem pairwise_isort {α : Type} (le : α → α → Bool)
    (htrans : ∀ a b c, le a b = true → le b c = true → le a c = true)
    (htot : ∀ a b, le a b = true ∨ le b a = true)
    (l : List α) :
    (isort le l).Pairwise (fun x y => le x y = true) := by
  induction l with
  | nil => simp [isort]
  | cons a t ih => exact pairwise_ordInsert le htrans htot a (isort le t) ih

theorem lookup_insertKV_self {α : Type} (k : Nat) (v : α) (m : List (Nat × α)) :
    List.lookup k (insertKV k v m) = some v := by
  simp [insertKV, List.lookup]

theorem lookup_cons_self {α : Type} (k : Nat) (v : α) (t : List (Nat × α)) :
    List.lookup k ((k, v) :: t) = some v := by
  simp [List.lookup]

theorem lookup_cons_of_ne {α : Type} (q k : Nat) (v : α) (t : List (Nat × α))
    (h : q ≠ k) : List.lookup q ((k, v) :: t) = List.lookup q t := by
  have hb : (q == k) = false := by simpa using h
  simp [List.lookup, hb]

theorem lookup_insertKV_ne {α : Type} (k q : Nat) (v : α) (m : List (Nat × α))
    (h : q ≠ k) : List.lookup q (insertKV k v m) = List.lookup q m := by
  rw [insertKV, lookup_cons_of_ne q k v _ h]
  induction m with
  | nil => rfl
  | cons p t ih =>
    rcases p with ⟨a, b⟩
    rw [List.filter_cons]
    by_cases hp : a = k
    · rw [if_neg (by simp [hp])]
      rw [ih, lookup_cons_of_ne q a b t (by rw [hp]; exact h)]
    · rw [if_pos (by simpa using hp)]
      by_cases hq : q = a
      · subst hq
        rw [lookup_cons_self, lookup_cons_self]
      · rw [lookup_cons_of_ne q a b _ hq, lookup_cons_of_ne q a b t hq, ih]

/-! Lemmas about the event fold and the projection. -/

theorem skip_events_applyEvent_skip (st : FoldState) (e : QueueEvent) (t : Nat)
    (htype : e.event_type = "skip") (href : e.ref_id = some t) :
    (applyEvent st e).skip_events = insertKV t e.id st.skip_events := by
  simp [applyEvent, htype, href]

theorem lookup_skip_events_applyEvent (st : FoldState) (e : QueueEvent) (t : Nat)
    (hcl : e.event_type ≠ "cleared")
    (hskip : ∀ r, e.event_type = "skip" → e.ref_id = some r → r ≠ t) :
    List.lookup t (applyEvent st e).skip_events = List.lookup t st.skip_events := by
  unfold applyEvent
  split
  · split
    · split <;> rfl
    · rfl
  · split <;> rfl
  · split <;> rfl
  · split <;> rfl
  case _ heq =>
    split
    case _ r hr => exact lookup_insertKV_ne _ _ _ _ (hskip r heq hr).symm
    · rfl
  · split <;> rfl
  case _ heq => exact absurd heq hcl
  · split <;> rfl
  · rfl

theorem foldEvents_append (l1 l2 : List (Option QueueEvent)) :
    foldEvents (l1 ++ l2) = l2.foldl foldStep (foldEvents l1) := by
  unfold foldEvents
  exact List.foldl_append _ _ _ _

theorem lookup_skip_events_foldl (t : Nat) (l : List (Option QueueEvent)) (st : FoldState)
    (h : ∀ e, some e ∈ l → e.event_type ≠ "cleared" ∧
      (∀ r, e.event_type = "skip" → e.ref_id = some r → r ≠ t)) :
    List.lookup t (l.foldl foldStep st).skip_events = List.lookup t st.skip_events := by
  induction l generalizing st with
  | nil => rfl
  | cons o rest ih =>
    rw [List.foldl_cons]
    rw [ih _ (fun e he => h e (List.mem_cons_of_mem o he))]
    cases o with
    | none => rfl
    | some e =>
      have he := h e (List.mem_cons_self _ _)
      exact lookup_skip_events_applyEvent st e t he.1 he.2

theorem skip_events_fetch (lines : List (Option QueueEvent)) :
    (fetch_shared_queue_data lines).skip_events = (foldEvents lines).skip_events := rfl

theorem pendingPairs_watermark (st : FoldState) (p : Nat × String)
    (h : p ∈ pendingPairs st) : st.last_cleared_id < p.1 := by
  unfold pendingPairs at h
  rcases List.mem_filter.mp h with ⟨hmem, hcond⟩
  simp only [Bool.and_eq_true, decide_eq_true_eq] at hcond
  exact hcond.1.1.1

theorem mem_itemsOf (st : FoldState) (trk : QueuedTrack) (h : trk ∈ itemsOf st) :
    ∃ p : Nat × String, p ∈ pendingPairs st ∧ trk.queued_id = some p.1 := by
  unfold itemsOf at h
  have h2 : trk ∈ (pendingPairs st).map (fun p =>
      { url := p.2
        title := (List.lookup p.1 st.metadata).getD "Loading..."
        queued_id := some p.1
        queued_by := List.lookup p.1 st.queued_by : QueuedTrack }) := by
    rcases hre : st.latest_reorder with _ | order
    · simpa [hre] using h
    · simp only [hre] at h
      exact (mem_isort _ _ _).mp h
  rcases List.mem_map.mp h2 with ⟨p, hp, hq⟩
  exact ⟨p, hp, by rw [← hq]⟩

theorem historyPairs_watermark (st : FoldState) (p : Nat × String)
    (h : p ∈ historyPairs st) : st.last_cleared_id < p.1 := by
  unfold historyPairs at h
  rcases List.mem_filter.mp (List.mem_reverse.mp h) with ⟨hmem, hcond⟩
  simp only [Bool.and_eq_true, decide_eq_true_eq] at hcond
  exact hcond.1

theorem mem_historyPairs (st : FoldState) (p : Nat × String) :
    p ∈ historyPairs st ↔
      p ∈ st.queued ∧ st.last_cleared_id < p.1 ∧
        (p.1 ∈ st.played ∨ p.1 ∈ st.failed) := by
  unfold historyPairs sortedQueuedOf
  rw [List.mem_reverse, List.mem_filter, mem_isort]
  simp only [Bool.and_eq_true, Bool.or_eq_true, decide_eq_true_eq]
  simp [and_assoc]

theorem historyPairs_sorted (st : FoldState) :
    (historyPairs st).Pairwise (fun x y => y.1 ≤ x.1) := by
  unfold historyPairs
  rw [List.pairwise_reverse]
  apply List.Pairwise.filter
  have hs := pairwise_isort (fun (a b : Nat × String) => a.1 ≤ b.1)
    (fun a b c hab hbc => by
      simp only [decide_eq_true_eq] at *
      omega)
    (fun a b => by
      simp only [decide_eq_true_eq]
      omega)
    st.queued
  unfold sortedQueuedOf
  exact hs.imp (fun hxy => by simpa using hxy)

theorem historyOf_eq_map (st : FoldState) :
    historyOf st = (historyPairs st).map
      (fun p => (p.2, List.lookup p.1 st.metadata, List.lookup p.1 st.queued_by)) := rfl

/-! Lemmas about the frame assembler. -/

theorem emitFrames_spec (buf : List Nat) :
    (∀ f ∈ (emitFrames buf).1, f.length = frame_size_bytes) ∧
    (emitFrames buf).1.flatten ++ (emitFrames buf).2 = buf ∧
    (emitFrames buf).2.length < frame_size_bytes := by
  induction buf using emitFrames.induct with
  | case1 buf h ih =>
    rw [emitFrames, dif_pos h]
    rcases ih with ⟨ihf, ihj, ihr⟩
    refine ⟨?_, ?_, ihr⟩
    · intro f hf
      rcases List.mem_cons.mp hf with rfl | hmem
      · exact List.length_take_of_le h
      · exact ihf f hmem
    · simp only [List.flatten_cons, List.append_assoc, ihj]
      exact List.take_append_drop _ _
  | case2 buf h =>
    rw [emitFrames, dif_neg h]
    refine ⟨by simp, by simp, ?_⟩
    simp only [List.length_nil]
    omega

theorem foldl_feedChunk_frames (chunks : List (List Nat)) :
    ∀ acc : List (List Nat) × List Nat,
      (∀ f ∈ acc.1, f.length = frame_size_bytes) →
      ∀ f ∈ (chunks.foldl feedChunk acc).1, f.length = frame_size_bytes := by
  induction chunks with
  | nil => exact fun acc h => h
  | cons c rest ih =>
    intro acc hacc
    rw [List.foldl_cons]
    apply ih
    intro f hf
    rcases List.mem_append.mp hf with hl | hr
    · exact hacc f hl
    · exact (emitFrames_spec (acc.2 ++ c)).1 f hr

theorem foldl_feedChunk_flatten (chunks : List (List Nat)) :
    ∀ acc : List (List Nat) × List Nat,
      (chunks.foldl feedChunk acc).1.flatten ++ (chunks.foldl feedChunk acc).2 =
        acc.1.flatten ++ acc.2 ++ chunks.flatten := by
  induction chunks with
  | nil => simp
  | cons c rest ih =>
    intro acc
    rw [List.foldl_cons, ih]
    simp only [feedChunk, List.flatten_append, List.flatten_cons]
    have hj := (emitFrames_spec (acc.2 ++ c)).2.1
    calc acc.1.flatten ++ (emitFrames (acc.2 ++ c)).1.flatten ++
          (emitFrames (acc.2 ++ c)).2 ++ rest.flatten
        = acc.1.flatten ++
            (((emitFrames (acc.2 ++ c)).1.flatten ++ (emitFrames (acc.2 ++ c)).2) ++
              rest.flatten) := by simp [List.append_assoc]
      _ = acc.1.flatten ++ ((acc.2 ++ c) ++ rest.flatten) := by rw [hj]
      _ = acc.1.flatten ++ acc.2 ++ (c ++ rest.flatten) := by simp [List.append_assoc]

theorem foldl_feedChunk_rest (chunks : List (List Nat)) :
    ∀ acc : List (List Nat) × List Nat,
      acc.2.length < frame_size_bytes →
      (chunks.foldl feedChunk acc).2.length < frame_size_bytes := by
  induction chunks with
  | nil => exact fun acc h => h
  | cons c rest ih =>
    intro acc hacc
    rw [List.foldl_cons]
    exact ih _ ((emitFrames_spec (acc.2 ++ c)).2.2)

theorem flatten_length_uniform (L : List (List Nat)) (c : Nat)
    (h : ∀ f ∈ L, f.length = c) : L.flatten.length = L.length * c := by
  induction L with
  | nil => simp
  | cons a t ih =>
    simp only [List.flatten_cons, List.length_append, List.length_cons]
    rw [h a (List.mem_cons_self _ _), ih (fun f hf => h f (List.mem_cons_of_mem _ hf))]
    ring

/-! Lemmas about the append protocol driver. -/

theorem isConflictErr_409 : isConflictErr "HTTP 409: Conflict" = true := by decide

theorem maxIdOf_append_one (lines : List (Option QueueEvent)) (e : QueueEvent) :
    maxIdOf (lines ++ [some e]) = max (maxIdOf lines) e.id := by
  unfold maxIdOf
  rw [List.foldl_append]
  rfl

theorem seqAppend_step (lines : List (Option QueueEvent)) (b : Bool)
    (rest : List Bool) :
    seqAppend lines (b :: rest) =
      ((seqAppend (lines ++ [some (queuedEv (maxIdOf lines + 1) "url")]) rest).1,
        (maxIdOf lines + 1) ::
          (seqAppend (lines ++ [some (queuedEv (maxIdOf lines + 1) "url")]) rest).2) := by
  cases b <;> simp [seqAppend, append_event_with_retry, isConflictErr_409]

theorem seqAppend_ids (flags : List Bool) :
    ∀ lines : List (Option QueueEvent),
      (seqAppend lines flags).2 =
        (List.range flags.length).map (fun i => maxIdOf lines + 1 + i) := by
  induction flags with
  | nil => intro lines; rfl
  | cons b rest ih =>
    intro lines
    rw [seqAppend_step, ih]
    have hmax : maxIdOf (lines ++ [some (queuedEv (maxIdOf lines + 1) "url")]) =
        maxIdOf lines + 1 := by
      rw [maxIdOf_append_one]
      simp [queuedEv]
    rw [hmax]
    rw [List.length_cons, List.range_succ_eq_map, List.map_cons, List.map_map]
    refine congrArg₂ _ (by omega) ?_
    apply List.map_congr_left
    intro i hi
    simp only [Function.comp]
    omega

/-! Lemmas about the volume path and the pipeline state. -/

theorem scale_sample_range (s : Int) (volume : Nat) :
    -32768 ≤ scale_sample s volume ∧ scale_sample s volume ≤ 32767 := by
  unfold scale_sample ratTrunc
  set q := max (-32768 : ℚ) (min ((s : ℚ) * ((volume : ℚ) / 100)) 32767) with hq
  have h1 : (-32768 : ℚ) ≤ q := le_max_left _ _
  have h2 : q ≤ 32767 := max_le (by norm_num) (min_le_right _ _)
  by_cases h0 : (0 : ℚ) ≤ q
  · rw [if_pos h0]
    constructor
    · have hf : (0 : Int) ≤ ⌊q⌋ := Int.floor_nonneg.mpr h0
      omega
    · have hf : (⌊q⌋ : ℚ) ≤ (32767 : ℚ) := le_trans (Int.floor_le q) h2
      exact_mod_cast hf
  · rw [if_neg h0]
    constructor
    · have hc : (-32768 : ℚ) ≤ (⌈q⌉ : ℚ) := le_trans h1 (Int.le_ceil q)
      exact_mod_cast hc
    · have hc : ⌈q⌉ ≤ (0 : Int) :=
        Int.ceil_le.mpr (by exact_mod_cast le_of_lt (lt_of_not_le h0))
      omega

theorem pcmReceiver_applyOp_none (s : PipelineState) (op : PipelineOp)
    (h : s.pcmReceiver = none) : (applyOp s op).pcmReceiver = none := by
  cases op <;> simp [applyOp, take_pcm_receiver, set_volume, h]
  case queueTrack url queued_by => split <;> simp [h]
  case clearSharedQueue => split <;> simp [h]

theorem pcmReceiver_foldl_none (ops : List PipelineOp) :
    ∀ s : PipelineState, s.pcmReceiver = none →
      (ops.foldl applyOp s).pcmReceiver = none := by
  induction ops with
  | nil => exact fun s h => h
  | cons op rest ih =>
    intro s h
    rw [List.foldl_cons]
    exact ih _ (pcmReceiver_applyOp_none s op h)

end Gezellig

namespace Gezellig

theorem fetch_items_eq (lines : List (Option QueueEvent)) :
    (fetch_shared_queue_data lines).items = itemsOf (foldEvents lines) := rfl

theorem fetch_history_eq (lines : List (Option QueueEvent)) :
    (fetch_shared_queue_data lines).history = historyOf (foldEvents lines) := rfl

/-- C1 (amended): pending items and history only ever hold queued ids
strictly above the clear watermark; the concrete watermark scenario
holds; processing a `cleared` event resets now-playing. -/
theorem cleared_watermark :
    (∀ (lines : List (Option QueueEvent)) (trk : QueuedTrack),
        trk ∈ (fetch_shared_queue_data lines).items →
        ∃ id : Nat, trk.queued_id = some id ∧
          (foldEvents lines).last_cleared_id < id) ∧
    (∀ (lines : List (Option QueueEvent)) (p : Nat × String),
        p ∈ historyPairs (foldEvents lines) →
        (foldEvents lines).last_cleared_id < p.1) ∧
    ((fetch_shared_queue_data
        [some (queuedEv 1 "a"), some (clearedEv 2), some (queuedEv 3 "b"),
          some (playedEv 4 1)]).items.map (fun t => t.queued_id) = [some 3]) ∧
    ((fetch_shared_queue_data
        [some (queuedEv 1 "a"), some (clearedEv 2), some (queuedEv 3 "b"),
          some (playedEv 4 1)]).history = []) ∧
    ((foldEvents [some (queuedEv 1 "a"), some (clearedEv 2)]).now_playing = none) := by
  refine ⟨?_, ?_, by decide, by decide, by decide⟩
  · intro lines trk h
    rw [fetch_items_eq] at h
    rcases mem_itemsOf (foldEvents lines) trk h with ⟨p, hp, hq⟩
    exact ⟨p.1, hq, pendingPairs_watermark _ p hp⟩
  · intro lines p hp
    exact historyPairs_watermark _ p hp

theorem cleared_watermark_witness :
    ∃ id : Nat,
      ({ url := "b", title := "Loading...", queued_id := some 3,
         queued_by := none } : QueuedTrack).queued_id = some id ∧
      (foldEvents [some (queuedEv 1 "a"), some (clearedEv 2), some (queuedEv 3 "b"),
        some (playedEv 4 1)]).last_cleared_id < id :=
  cleared_watermark.1
    [some (queuedEv 1 "a"), some (clearedEv 2), some (queuedEv 3 "b"),
      some (playedEv 4 1)]
    { url := "b", title := "Loading...", queued_id := some 3, queued_by := none }
    (by decide)

/-- C1 counterexample: with log `cleared(2)` then `skip(id=3, ref=1)`,
id 1 is at or below the watermark 2 yet is present in the derived skip
map — "discarded from all derived sets" fails for the skip map. -/
theorem cleared_watermark_counterexample :
    (foldEvents [some (clearedEv 2), some (skipEv 3 1)]).last_cleared_id = 2 ∧
    List.lookup 1
      (fetch_shared_queue_data
        [some (clearedEv 2), some (skipEv 3 1)]).skip_events = some 3 := by
  decide

end Gezellig

namespace Gezellig

/-- C2: the remote skip check reports skip-requested exactly when the
projection's recorded skip-event id for the track is strictly greater
than the watermark id passed in; a log containing a `skip(ref=t,id=s)`
not later overridden or cleared makes the check report `w < s`; the
concrete watermark-10/13 scenario holds. -/
theorem skip_freshness :
    (∀ (lines : List (Option QueueEvent)) (t s w : Nat),
        List.lookup t (fetch_shared_queue_data lines).skip_events = some s →
        shared_skip_requested lines t w = decide (w < s)) ∧
    (∀ (lines : List (Option QueueEvent)) (t w : Nat),
        List.lookup t (fetch_shared_queue_data lines).skip_events = none →
        shared_skip_requested lines t w = false) ∧
    (∀ (l1 l2 : List (Option QueueEvent)) (t s w : Nat),
        (∀ e : QueueEvent, some e ∈ l2 → e.event_type ≠ "cleared" ∧
          (∀ r : Nat, e.event_type = "skip" → e.ref_id = some r → r ≠ t)) →
        shared_skip_requested (l1 ++ (some (skipEv s t) :: l2)) t w =
          decide (w < s)) ∧
    shared_skip_requested
      [some (playingEv 10 5 "T" "U"), some (skipEv 12 5)] 5 10 = true ∧
    shared_skip_requested
      [some (playingEv 10 5 "T" "U"), some (skipEv 12 5)] 5 13 = false := by
  refine ⟨?_, ?_, ?_, by decide, by decide⟩
  · intro lines t s w h
    unfold shared_skip_requested
    rw [h]
    rfl
  · intro lines t w h
    unfold shared_skip_requested
    rw [h]
    rfl
  · intro l1 l2 t s w h
    unfold shared_skip_requested
    rw [skip_events_fetch]
    have hsplit : foldEvents (l1 ++ (some (skipEv s t) :: l2)) =
        l2.foldl foldStep (foldEvents (l1 ++ [some (skipEv s t)])) := by
      rw [← foldEvents_append]
      simp
    rw [hsplit, lookup_skip_events_foldl t l2 _ h]
    rw [foldEvents_append, List.foldl_cons, List.foldl_nil]
    have hstep : foldStep (foldEvents l1) (some (skipEv s t)) =
        applyEvent (foldEvents l1) (skipEv s t) := rfl
    rw [hstep, skip_events_applyEvent_skip _ _ t rfl rfl, lookup_insertKV_self]
    rfl

theorem skip_freshness_witness :
    shared_skip_requested
      [some (playingEv 10 5 "T" "U"), some (skipEv 12 5)] 5 10 = decide (10 < 12) :=
  skip_freshness.2.2.1 [some (playingEv 10 5 "T" "U")] [] 5 12 10
    (by intro e he; simp at he)

/-- C8: the projection is a deterministic pure function of the log
lines: equal inputs give equal derived state. -/
theorem projection_deterministic (l1 l2 : List (Option QueueEvent))
    (h : l1 = l2) :
    fetch_shared_queue_data l1 = fetch_shared_queue_data l2 := by
  rw [h]

theorem projection_deterministic_witness :
    fetch_shared_queue_data [some (queuedEv 1 "a"), some (playingEv 2 1 "T" "a")] =
      fetch_shared_queue_data [some (queuedEv 1 "a"), some (playingEv 2 1 "T" "a")] :=
  projection_deterministic _ _ rfl

end Gezellig

namespace Gezellig

/-- C9 (amended): an (id, url) pair underlies a history entry exactly
when it survives the fold (its queued event came after the last
cleared), its id is above the watermark and a surviving played/failed
event references it; the underlying ids are in descending order
(most-recently-queued first, which is most-recently-played first when
tracks finish in queue order); the history is the image of those pairs
with resolved titles and attribution; and the concrete A-then-B
natural-finish scenario lists B then A. -/
theorem history_order :
    (∀ (lines : List (Option QueueEvent)) (p : Nat × String),
        p ∈ historyPairs (foldEvents lines) ↔
          p ∈ (foldEvents lines).queued ∧
          (foldEvents lines).last_cleared_id < p.1 ∧
          (p.1 ∈ (foldEvents lines).played ∨ p.1 ∈ (foldEvents lines).failed)) ∧
    (∀ lines : List (Option QueueEvent),
        (historyPairs (foldEvents lines)).Pairwise (fun x y => y.1 ≤ x.1)) ∧
    (∀ lines : List (Option QueueEvent),
        (fetch_shared_queue_data lines).history =
          (historyPairs (foldEvents lines)).map
            (fun p => (p.2, List.lookup p.1 (foldEvents lines).metadata,
              List.lookup p.1 (foldEvents lines).queued_by))) ∧
    ((fetch_shared_queue_data
        [some (queuedEv 1 "urlA"), some (queuedEv 2 "urlB"),
          some (playingEv 3 1 "A" "urlA"), some (playedEv 4 1),
          some (playingEv 5 2 "B" "urlB"), some (playedEv 6 2)]).history =
      [("urlB", none, none), ("urlA", none, none)]) := by
  refine ⟨?_, ?_, ?_, by decide⟩
  · intro lines p
    exact mem_historyPairs (foldEvents lines) p
  · intro lines
    exact historyPairs_sorted (foldEvents lines)
  · intro lines
    rfl

theorem history_order_witness :
    (1, "urlA") ∈ historyPairs (foldEvents
      [some (queuedEv 1 "urlA"), some (queuedEv 2 "urlB"),
        some (playingEv 3 1 "A" "urlA"), some (playedEv 4 1),
        some (playingEv 5 2 "B" "urlB"), some (playedEv 6 2)]) :=
  (history_order.1
    [some (queuedEv 1 "urlA"), some (queuedEv 2 "urlB"),
      some (playingEv 3 1 "A" "urlA"), some (playedEv 4 1),
      some (playingEv 5 2 "B" "urlB"), some (playedEv 6 2)]
    (1, "urlA")).mpr (by refine ⟨by decide, by decide, Or.inl (by decide)⟩)

/-- C9 counterexample: queue A(id 1) and B(id 2), then B finishes
first (`played(ref=2)` at id 3) and A finishes last (`played(ref=1)`
at id 4).  The most recently played item is A, but the history lists B
first: the code orders history by descending queued id, not by
recency of playing. -/
theorem history_order_counterexample :
    ((fetch_shared_queue_data
        [some (queuedEv 1 "urlA"), some (queuedEv 2 "urlB"),
          some (playedEv 3 2), some (playedEv 4 1)]).history =
      [("urlB", none, none), ("urlA", none, none)]) ∧
    ((fetch_shared_queue_data
        [some (queuedEv 1 "urlA"), some (queuedEv 2 "urlB"),
          some (playedEv 3 2), some (playedEv 4 1)]).history ≠
      [("urlA", none, none), ("urlB", none, none)]) := by
  decide

end Gezellig

namespace Gezellig

/-- C3: a version-conflicted write (error containing "409") is retried
exactly once with a fresh read and fresh next id; a second failure of
any kind is returned as an error; a non-conflict write error is
returned immediately, independently of the second attempt's
environment. -/
theorem append_retry_policy :
    (∀ (a0 a1 : AppendAttempt) (e : String),
        a0.writeResult = some e → isConflictErr e = true →
        a1.writeResult = none → a1.stateWriteResult = none →
        append_event_with_retry a0 a1 =
          Except.ok (maxIdOf a1.readLines + 1)) ∧
    (∀ (a0 a1 : AppendAttempt) (e e1 : String),
        a0.writeResult = some e → isConflictErr e = true →
        a1.writeResult = some e1 →
        append_event_with_retry a0 a1 = Except.error e1) ∧
    (∀ (a0 a1 : AppendAttempt) (e : String),
        a0.writeResult = some e → isConflictErr e = false →
        append_event_with_retry a0 a1 = Except.error e) := by
  refine ⟨?_, ?_, ?_⟩
  · intro a0 a1 e h0 hc h1 hs
    simp [append_event_with_retry, h0, hc, h1, hs]
  · intro a0 a1 e e1 h0 hc h1
    simp [append_event_with_retry, h0, hc, h1]
  · intro a0 a1 e h0 hc
    simp [append_event_with_retry, h0, hc]

theorem append_retry_policy_witness :
    append_event_with_retry
      { readLines := [], writeResult := some "HTTP 409: Conflict",
        stateWriteResult := none }
      { readLines := [some (queuedEv 4 "u")], writeResult := none,
        stateWriteResult := none } = Except.ok 5 :=
  append_retry_policy.1
    { readLines := [], writeResult := some "HTTP 409: Conflict",
      stateWriteResult := none }
    { readLines := [some (queuedEv 4 "u")], writeResult := none,
      stateWriteResult := none }
    "HTTP 409: Conflict" rfl (by decide) rfl rfl

/-- C4: a successful append returns `1 + max(ids in the freshly read
log)` (`maxIdOf [] = 0` covers the empty or unreadable log), and
running N sequential appends through the retry-protected append hands
out the consecutive, pairwise-distinct ids `previous_max + 1, +2, …`
even when first attempts are hit by spurious write conflicts. -/
theorem append_monotonic_ids :
    (∀ a0 a1 : AppendAttempt, a0.writeResult = none →
        a0.stateWriteResult = none →
        append_event_with_retry a0 a1 =
          Except.ok (maxIdOf a0.readLines + 1)) ∧
    (∀ (lines : List (Option QueueEvent)) (flags : List Bool),
        (seqAppend lines flags).2 =
          (List.range flags.length).map (fun i => maxIdOf lines + 1 + i)) ∧
    (∀ (lines : List (Option QueueEvent)) (flags : List Bool),
        ((seqAppend lines flags).2).Nodup) ∧
    maxIdOf [] = 0 := by
  refine ⟨?_, ?_, ?_, rfl⟩
  · intro a0 a1 h0 hs
    simp [append_event_with_retry, h0, hs]
  · intro lines flags
    exact seqAppend_ids flags lines
  · intro lines flags
    rw [seqAppend_ids]
    exact (List.nodup_range _).map (fun a b hab => by omega)

theorem append_monotonic_ids_witness :
    append_event_with_retry
      { readLines := [], writeResult := none, stateWriteResult := none }
      { readLines := [], writeResult := none, stateWriteResult := none } =
      Except.ok (maxIdOf [] + 1) :=
  append_monotonic_ids.1
    { readLines := [], writeResult := none, stateWriteResult := none }
    { readLines := [], writeResult := none, stateWriteResult := none }
    rfl rfl

end Gezellig

namespace Gezellig

/-- C5: fed any sequence of arbitrary-length byte chunks, the frame
assembler emits only frames of exactly `frame_size_bytes` =
48000/100 × 2 channels × 2 bytes = 1920 bytes (10 ms), drops no byte
(the emitted frames plus the retained buffer reassemble the input),
always retains less than one frame, and on input totalling exactly 3
frames plus a partial remainder it has emitted exactly 3 frames with
the remainder retained. -/
theorem frame_assembler_exactness (chunks : List (List Nat)) :
    frame_size_bytes = 1920 ∧
    (∀ f ∈ (feedChunks chunks).1, f.length = frame_size_bytes) ∧
    (feedChunks chunks).1.flatten ++ (feedChunks chunks).2 = chunks.flatten ∧
    (feedChunks chunks).2.length < frame_size_bytes ∧
    (∀ r : Nat, 0 < r → r < frame_size_bytes →
      chunks.flatten.length = 3 * frame_size_bytes + r →
      (feedChunks chunks).1.length = 3 ∧ (feedChunks chunks).2.length = r) := by
  have hf : ∀ f ∈ (feedChunks chunks).1, f.length = frame_size_bytes :=
    foldl_feedChunk_frames chunks ([], []) (by simp)
  have hj : (feedChunks chunks).1.flatten ++ (feedChunks chunks).2 =
      ([] : List (List Nat)).flatten ++ ([] : List Nat) ++ chunks.flatten :=
    foldl_feedChunk_flatten chunks ([], [])
  simp only [List.flatten_nil, List.nil_append] at hj
  have hr : (feedChunks chunks).2.length < frame_size_bytes :=
    foldl_feedChunk_rest chunks ([], []) (by decide)
  refine ⟨rfl, hf, hj, hr, ?_⟩
  intro r hr0 hrf htot
  have hlen := congrArg List.length hj
  rw [List.length_append, flatten_length_uniform _ _ hf, htot] at hlen
  have hfsb : frame_size_bytes = 1920 := rfl
  rw [hfsb] at hlen hrf hr
  constructor <;> omega

theorem frame_assembler_exactness_witness :
    (feedChunks [List.replicate 5765 0]).1.length = 3 ∧
    (feedChunks [List.replicate 5765 0]).2.length = 5 :=
  (frame_assembler_exactness [List.replicate 5765 0]).2.2.2.2 5
    (by decide) (by decide)
    (by
      simp only [List.flatten_cons, List.flatten_nil, List.append_nil,
        List.length_replicate]
      rfl)

/-- C6: volume is clamped to 0–100 on every set (150 reads back as
100, 0 as 0), and every scaled sample — the original times
volume/100, clamped — stays inside the signed 16-bit range for every
sample and every volume value. -/
theorem volume_clamp_and_scale :
    (∀ (s : PipelineState) (v : Nat), (set_volume s v).volume = min v 100) ∧
    ((set_volume (with_cache_dir_and_state false) 150).volume = 100) ∧
    ((set_volume (with_cache_dir_and_state false) 0).volume = 0) ∧
    (∀ (smp : Int) (v : Nat),
        -32768 ≤ scale_sample smp v ∧ scale_sample smp v ≤ 32767) := by
  exact ⟨fun s v => rfl, rfl, rfl, scale_sample_range⟩

/-- C7: when resolution of the popped track fails, the loop records
status Loading, appends exactly one `failed` event referencing the
track's queued id (only in shared mode with a known id), never appends
a `playing` event, and always continues to the next iteration. -/
theorem resolution_failure_nonfatal :
    (∀ (id : Nat) (err : String),
        runTrackIteration (some id) (Except.error err) =
          ([LoopAction.setStatusLoading, LoopAction.appendFailed id], true)) ∧
    (∀ err : String,
        runTrackIteration none (Except.error err) =
          ([LoopAction.setStatusLoading], true)) ∧
    (∀ (sharedWithId : Option Nat) (err : String),
        (runTrackIteration sharedWithId (Except.error err)).2 = true) := by
  refine ⟨fun id err => rfl, fun err => rfl, ?_⟩
  intro sharedWithId err
  cases sharedWithId <;> rfl

/-- C10: a freshly constructed pipeline hands out its PCM receiver on
the first `take_pcm_receiver` call, and after that call every further
call returns `None`, no matter which public operations run in
between — nothing restores the receiver. -/
theorem take_pcm_receiver_once :
    (∀ shared : Bool,
        (take_pcm_receiver (with_cache_dir_and_state shared)).1 = some ()) ∧
    (∀ (shared : Bool) (ops : List PipelineOp),
        (take_pcm_receiver
          (ops.foldl applyOp
            (take_pcm_receiver (with_cache_dir_and_state shared)).2)).1 = none) := by
  refine ⟨fun shared => rfl, ?_⟩
  intro shared ops
  show (ops.foldl applyOp _).pcmReceiver = none
  exact pcmReceiver_foldl_none ops _ rfl

end Gezellig
